import Mathlib

/-!
Shallow embedding of the incremental re-embedding cache of the
`ai-rag-ombre` repository and of its two document-loading drivers:

* `embed_cache.py` — `load_cache`, `save_cache`, `get_file_hash`,
  `file_needs_embedding`, `update_cache`;
* `main.py` — `load_documents` (reads every qualifying file, no cache);
* `main_lore.py` — `load_documents` (reads only files whose fingerprint
  differs from the cached one, then persists the cache once).

Modelling choices.  A parsed JSON value is the inductive `Json`.  The
persisted cache file (`embed_cache.json`) is a `CacheFileState`: `missing`
when `os.path.exists` is false, `present p` when the file exists, where
`p = some j` exactly when `json.load` succeeds with value `j` and `p = none`
when `json.load` raises `json.JSONDecodeError`.  Byte-level JSON text is
owned by the Python standard library, and `json.dump` followed by
`json.load` reproduces a dumped value, so the serialised form is identified
with the parsed value; the states a crash during `save_cache` can expose are
modelled separately by `save_cache_states`.  A file system is a list of
files in `os.walk` traversal order; each file carries the joined path, the
base name, its content, and a readability flag (`open` raises an `IOError`
exactly when the flag is false; the file system is fixed for the run).
Python exceptions are the error side of `Except PyError`.
-/

/-- A parsed JSON value, as returned by `json.load`. -/
inductive Json where
  | null
  | bool (b : Bool)
  | num (n : Int)
  | str (s : String)
  | arr (elems : List Json)
  | obj (fields : List (String × Json))

/-- The Python exceptions that the embedded code can raise. -/
inductive PyError where
  | ioError
  | jsonDecodeError
  | attributeError
  | typeError
deriving DecidableEq

/-- State of the persisted cache file: absent, or present with the result of
parsing it (`none` when `json.load` would raise `JSONDecodeError`). -/
inductive CacheFileState where
  | missing
  | present (parsed : Option Json)

/-- One file of the scanned tree: joined path (`os.path.join(root, filename)`),
base name, readability, and byte content. -/
structure FSFile where
  path : String
  name : String
  readable : Bool
  content : String
deriving DecidableEq

/-- A directory tree, listed in `os.walk` traversal order. -/
abbrev FileSystem := List FSFile

/-- Resolution of a path by the operating system: the first entry carrying
that path. -/
def resolve (fs : FileSystem) (p : String) : Option FSFile :=
  fs.find? (fun f => f.path == p)

/-- Python `open(filepath, "r", encoding="utf-8").read()`: the text read the
drivers perform; raises `IOError` when the file is absent or unreadable. -/
def readText (fs : FileSystem) (filepath : String) : Except PyError String :=
  match resolve fs filepath with
  | some f => if f.readable then Except.ok f.content else Except.error PyError.ioError
  | none => Except.error PyError.ioError

/-- Python `dict.get k` on the field list of a parsed JSON object: the value
bound to the key, `none` when the key is absent. -/
def objGet (fields : List (String × Json)) (k : String) : Option Json :=
  match fields with
  | [] => none
  | (k2, v) :: rest => if k2 = k then some v else objGet rest k

/-- Python `d[k] = v` on a dict: replace the binding in place when the key is
present, append it otherwise. -/
def objSet (fields : List (String × Json)) (k : String) (v : Json) :
    List (String × Json) :=
  match fields with
  | [] => [(k, v)]
  | (k2, v2) :: rest => if k2 = k then (k, v) :: rest else (k2, v2) :: objSet rest k v

/-- Python `cache.get(filepath)`: succeeds on a dict, raises
`AttributeError` on any other value. -/
def dictGet (cache : Json) (k : String) : Except PyError (Option Json) :=
  match cache with
  | Json.obj fields => Except.ok (objGet fields k)
  | _ => Except.error PyError.attributeError

/-- Python `cache[filepath] = v`: succeeds on a dict, raises `TypeError` on
any other value. -/
def dictSet (cache : Json) (k : String) (v : Json) : Except PyError Json :=
  match cache with
  | Json.obj fields => Except.ok (Json.obj (objSet fields k v))
  | _ => Except.error PyError.typeError

namespace EmbedCache

/-- Stand-in for `hashlib.md5(data).hexdigest()` of the Python standard
library: a fixed deterministic digest of the byte content.  The theorems
below use only that the digest is a function of the content, never the MD5
algorithm itself. -/
def md5hex (content : String) : String :=
  toString (content.toList.foldl (fun h c => (h * 131 + c.toNat) % 1000000007) 7)

/-- Source `embed_cache.load_cache`: when the cache file exists, return the
result of `json.load` (propagating its parse failure); otherwise return an
empty dict. -/
def load_cache (st : CacheFileState) : Except PyError Json :=
  match st with
  | CacheFileState.missing => Except.ok (Json.obj [])
  | CacheFileState.present none => Except.error PyError.jsonDecodeError
  | CacheFileState.present (some j) => Except.ok j

/-- Source `embed_cache.save_cache`: `json.dump` the whole mapping into the
cache file, clobbering whatever was there before. -/
def save_cache (cache : Json) : CacheFileState :=
  CacheFileState.present (some cache)

/-- On-disk states exposed while `save_cache` runs: `open(CACHE_FILE, "w")`
first truncates the file in place (an empty file, which `json.load`
rejects), then `json.dump` writes the serialised mapping.  The list holds
the successive durable states after each of those two steps. -/
def save_cache_states (cache : Json) : List CacheFileState :=
  [CacheFileState.present none, CacheFileState.present (some cache)]

/-- Source `embed_cache.get_file_hash`: open the file in binary mode, read
it whole, and return the hex digest of its bytes. -/
def get_file_hash (fs : FileSystem) (filepath : String) : Except PyError String :=
  match resolve fs filepath with
  | some f => if f.readable then Except.ok (md5hex f.content) else Except.error PyError.ioError
  | none => Except.error PyError.ioError

/-- The comparison `current_hash != cached_hash` of
`embed_cache.file_needs_embedding`: `current_hash` is a string, so it
differs from `None` (a missing key) and from every non-string value, and
from a string exactly when the texts differ. -/
def hashDiffers (current : String) : Option Json → Bool
  | none => true
  | some (Json.str s) => s != current
  | some _ => true

/-- Source `embed_cache.file_needs_embedding`: hash the file, look the path
up in the cache, return whether the two differ. -/
def file_needs_embedding (fs : FileSystem) (filepath : String) (cache : Json) :
    Except PyError Bool := do
  let current ← get_file_hash fs filepath
  let cached ← dictGet cache filepath
  pure (hashDiffers current cached)

/-- Source `embed_cache.update_cache`: store the current hash of the file
under its path in the in-memory mapping. -/
def update_cache (fs : FileSystem) (filepath : String) (cache : Json) :
    Except PyError Json := do
  let h ← get_file_hash fs filepath
  dictSet cache filepath (Json.str h)

end EmbedCache

/-- A LangChain document: page content plus the source path kept in its
metadata. -/
structure Document where
  page_content : String
  source : String
deriving DecidableEq

/-- Python `s.endswith(suffix)`, written over the character list of the
string so that it evaluates inside the kernel. -/
def pyEndsWith (s suffix : String) : Bool :=
  List.isSuffixOf suffix.data s.data

/-- The extension filter both drivers apply:
`filename.endswith(".md") or filename.endswith(".txt")`. -/
def qualifies (f : FSFile) : Bool :=
  pyEndsWith f.name ".md" || pyEndsWith f.name ".txt"

namespace Main

/-- The walk loop of `main.load_documents`: read every qualifying file and
wrap it in a `Document`; a read failure propagates. -/
def collect (fs : FileSystem) : List FSFile → Except PyError (List Document)
  | [] => Except.ok []
  | f :: rest =>
    if qualifies f then do
      let content ← readText fs f.path
      let docs ← collect fs rest
      Except.ok ({ page_content := content, source := f.path } :: docs)
    else
      collect fs rest

/-- Source `main.load_documents`: walk the folder and load every `.md` or
`.txt` file unconditionally; no cache is consulted. -/
def load_documents (fs : FileSystem) : Except PyError (List Document) :=
  collect fs fs

end Main

namespace MainLore

/-- The walk loop of `main_lore.load_documents`: for each qualifying file,
consult `file_needs_embedding`; when it answers true, read the file, emit a
`Document`, and `update_cache`; any exception propagates. -/
def processFiles (fs : FileSystem) : List FSFile → Json → Except PyError (List Document × Json)
  | [], cache => Except.ok ([], cache)
  | f :: rest, cache =>
    if qualifies f then do
      let needs ← EmbedCache.file_needs_embedding fs f.path cache
      if needs then do
        let content ← readText fs f.path
        let cache2 ← EmbedCache.update_cache fs f.path cache
        let (docs, cacheF) ← processFiles fs rest cache2
        Except.ok ({ page_content := content, source := f.path } :: docs, cacheF)
      else
        processFiles fs rest cache
    else
      processFiles fs rest cache

/-- Source `main_lore.load_documents`, together with the durable writes it
performs: `load_cache`, the walk, then one `save_cache` of the updated
mapping.  The first component is the returned document list (or the
propagated exception); the second lists every durable write to the cache
file, in order, that the run performed before returning or raising. -/
def load_documents (st : CacheFileState) (fs : FileSystem) :
    Except PyError (List Document) × List CacheFileState :=
  match EmbedCache.load_cache st with
  | Except.error e => (Except.error e, [])
  | Except.ok cache =>
    match processFiles fs fs cache with
    | Except.error e => (Except.error e, [])
    | Except.ok (docs, cache2) => (Except.ok docs, [EmbedCache.save_cache cache2])

/-- Disk state once a run is over: the last durable write, or the pre-run
state when the run wrote nothing. -/
def diskAfter (st : CacheFileState) (writes : List CacheFileState) : CacheFileState :=
  writes.foldl (fun _ w => w) st

end MainLore

/-- A string-to-string mapping as the JSON object `json.dump` serialises. -/
def strCache (entries : List (String × String)) : Json :=
  Json.obj (entries.map (fun p => (p.1, Json.str p.2)))

/-- The documents `main.load_documents` builds: one per qualifying file, in
walk order, carrying the file content and path. -/
def allDocs (fs : FileSystem) : List Document :=
  (fs.filter (fun f => qualifies f)).map
    (fun f => { page_content := f.content, source := f.path })

/-! Helper lemmas on `Except` binds, shared by several proofs below. -/

@[simp]
theorem exceptBind_ok {ε α β : Type} (a : α) (g : α → Except ε β) :
    (Except.ok a >>= g) = g a := rfl

@[simp]
theorem exceptBind_error {ε α β : Type} (e : ε) (g : α → Except ε β) :
    ((Except.error e : Except ε α) >>= g) = Except.error e := rfl

@[simp]
theorem exceptPure_eq_ok {ε α : Type} (a : α) :
    (pure a : Except ε α) = Except.ok a := rfl

/-- Claim C8: when no persisted cache record exists, `load_cache` returns an
empty mapping and raises nothing. -/
theorem load_cache_missing :
    EmbedCache.load_cache CacheFileState.missing = Except.ok (Json.obj []) := rfl

/-- Claim C1, counterexample: on a stored record that `json.load` cannot
parse, `load_cache` raises the parse error instead of returning an empty
mapping. -/
theorem load_cache_malformed_cex :
    EmbedCache.load_cache (CacheFileState.present none) =
      Except.error PyError.jsonDecodeError := rfl

/-- Claim C1, amended: `load_cache` propagates the parse error on a
malformed record — it raises exactly when the stored record exists and
cannot be parsed, and returns an empty mapping only when no record
exists. -/
theorem load_cache_raises_iff (st : CacheFileState) :
    EmbedCache.load_cache st = Except.error PyError.jsonDecodeError ↔
      st = CacheFileState.present none := by
  cases st with
  | missing => simp [EmbedCache.load_cache]
  | present p =>
    cases p with
    | none => simp [EmbedCache.load_cache]
    | some j => simp [EmbedCache.load_cache]

/-- Witness for `load_cache_raises_iff` at a concrete malformed record. -/
theorem load_cache_raises_iff_w :
    EmbedCache.load_cache (CacheFileState.present none) =
      Except.error PyError.jsonDecodeError :=
  (load_cache_raises_iff (CacheFileState.present none)).mpr rfl

/-- Claim C3: for a readable file, `file_needs_embedding` answers true
exactly when the current fingerprint differs from the cached entry, a path
absent from the cache counting as differing.  The cache argument is passed
by value and the function returns only the boolean, so it cannot mutate the
mapping. -/
theorem file_needs_embedding_spec (fs : FileSystem) (p : String)
    (fields : List (String × Json)) (d : String)
    (h : EmbedCache.get_file_hash fs p = Except.ok d) :
    (EmbedCache.file_needs_embedding fs p (Json.obj fields) = Except.ok true ↔
        objGet fields p ≠ some (Json.str d)) ∧
      (EmbedCache.file_needs_embedding fs p (Json.obj fields) = Except.ok false ↔
        objGet fields p = some (Json.str d)) := by
  have hrun : EmbedCache.file_needs_embedding fs p (Json.obj fields) =
      Except.ok (EmbedCache.hashDiffers d (objGet fields p)) := by
    unfold EmbedCache.file_needs_embedding
    rw [h]
    rfl
  rw [hrun]
  cases hog : objGet fields p with
  | none => simp [EmbedCache.hashDiffers]
  | some v =>
    cases v with
    | null => simp [EmbedCache.hashDiffers]
    | bool b => simp [EmbedCache.hashDiffers]
    | num n => simp [EmbedCache.hashDiffers]
    | str s => simp [EmbedCache.hashDiffers, bne_iff_ne]
    | arr xs => simp [EmbedCache.hashDiffers]
    | obj gs => simp [EmbedCache.hashDiffers]

/-- Witness for `file_needs_embedding_spec`: one readable file, empty
cache. -/
theorem file_needs_embedding_spec_w :
    (EmbedCache.file_needs_embedding [⟨"data/a.md", "a.md", true, "Alpha"⟩]
          "data/a.md" (Json.obj []) = Except.ok true ↔
        objGet [] "data/a.md" ≠ some (Json.str (EmbedCache.md5hex "Alpha"))) ∧
      (EmbedCache.file_needs_embedding [⟨"data/a.md", "a.md", true, "Alpha"⟩]
          "data/a.md" (Json.obj []) = Except.ok false ↔
        objGet [] "data/a.md" = some (Json.str (EmbedCache.md5hex "Alpha"))) :=
  file_needs_embedding_spec [⟨"data/a.md", "a.md", true, "Alpha"⟩]
    "data/a.md" [] (EmbedCache.md5hex "Alpha") rfl

/-- Claim C9: the fingerprint depends only on the byte content — two reads
that resolve to readable files with identical content yield identical
digests, whatever the paths, the surrounding trees, or the call order. -/
theorem get_file_hash_det (fs1 fs2 : FileSystem) (p1 p2 : String) (f1 f2 : FSFile)
    (h1 : resolve fs1 p1 = some f1) (h2 : resolve fs2 p2 = some f2)
    (hr1 : f1.readable = true) (hr2 : f2.readable = true)
    (hc : f1.content = f2.content) :
    EmbedCache.get_file_hash fs1 p1 = EmbedCache.get_file_hash fs2 p2 := by
  unfold EmbedCache.get_file_hash
  rw [h1, h2]
  simp [hr1, hr2, hc]

/-- Witness for `get_file_hash_det`: same content behind two different
paths in two different trees. -/
theorem get_file_hash_det_w :
    EmbedCache.get_file_hash [⟨"data/a.md", "a.md", true, "Alpha"⟩] "data/a.md" =
      EmbedCache.get_file_hash
        [⟨"data/x.txt", "x.txt", true, "Alpha"⟩, ⟨"data/y.txt", "y.txt", true, "Beta"⟩]
        "data/x.txt" :=
  get_file_hash_det _ _ _ _ ⟨"data/a.md", "a.md", true, "Alpha"⟩
    ⟨"data/x.txt", "x.txt", true, "Alpha"⟩ rfl rfl rfl rfl rfl

/-- Claim C6: persisting a non-empty string-to-string mapping and loading
it back with a fresh `load_cache` reproduces an equal mapping. -/
theorem save_load_roundtrip (entries : List (String × String))
    (hne : entries ≠ []) (hnd : (entries.map Prod.fst).Nodup) :
    EmbedCache.load_cache (EmbedCache.save_cache (strCache entries)) =
      Except.ok (strCache entries) := rfl

/-- Witness for `save_load_roundtrip` on a one-entry mapping. -/
theorem save_load_roundtrip_w :
    EmbedCache.load_cache (EmbedCache.save_cache (strCache [("data/a.md", "12345")])) =
      Except.ok (strCache [("data/a.md", "12345")]) :=
  save_load_roundtrip [("data/a.md", "12345")] (by simp) (by simp)

/-- Claim C5, counterexample: among the on-disk states `save_cache` passes
through is the truncated (empty, unparseable) file, from which `load_cache`
raises — a crash mid-write can leave the persisted cache unreadable. -/
theorem save_cache_midwrite_cex :
    CacheFileState.present none ∈
        EmbedCache.save_cache_states (strCache [("data/a.md", "12345")]) ∧
      EmbedCache.load_cache (CacheFileState.present none) =
        Except.error PyError.jsonDecodeError :=
  ⟨List.mem_cons_self _ _, rfl⟩

/-- Claim C5, amended: `save_cache` persists the full mapping, overwriting
any prior state, but the write is not atomic — it truncates the target file
in place before writing, so among its intermediate on-disk states is an
unparseable one on which a fresh load raises. -/
theorem save_cache_overwrites_not_atomic (cache : Json) :
    EmbedCache.save_cache cache = CacheFileState.present (some cache) ∧
      (EmbedCache.save_cache_states cache).getLast? =
        some (EmbedCache.save_cache cache) ∧
      CacheFileState.present none ∈ EmbedCache.save_cache_states cache ∧
      EmbedCache.load_cache (CacheFileState.present none) =
        Except.error PyError.jsonDecodeError :=
  ⟨rfl, rfl, List.mem_cons_self _ _, rfl⟩

/-- Witness for `save_cache_overwrites_not_atomic` on a concrete mapping. -/
theorem save_cache_overwrites_not_atomic_w :
    EmbedCache.save_cache (strCache [("data/b.txt", "99")]) =
        CacheFileState.present (some (strCache [("data/b.txt", "99")])) ∧
      (EmbedCache.save_cache_states (strCache [("data/b.txt", "99")])).getLast? =
        some (EmbedCache.save_cache (strCache [("data/b.txt", "99")])) ∧
      CacheFileState.present none ∈
        EmbedCache.save_cache_states (strCache [("data/b.txt", "99")]) ∧
      EmbedCache.load_cache (CacheFileState.present none) =
        Except.error PyError.jsonDecodeError :=
  save_cache_overwrites_not_atomic (strCache [("data/b.txt", "99")])

/-- Claim C7: once the cache is loaded, a run of the lore driver performs
exactly one durable write — `save_cache` of the fully updated mapping,
after the whole walk has completed — and a run whose walk raises performs
none, leaving the on-disk cache at its pre-run state. -/
theorem lore_save_exactly_once (st : CacheFileState) (fs : FileSystem) (cache : Json)
    (hload : EmbedCache.load_cache st = Except.ok cache) :
    (∀ docs cache2, MainLore.processFiles fs fs cache = Except.ok (docs, cache2) →
        MainLore.load_documents st fs =
          (Except.ok docs, [EmbedCache.save_cache cache2])) ∧
      (∀ e, MainLore.processFiles fs fs cache = Except.error e →
        MainLore.load_documents st fs = (Except.error e, [])) := by
  constructor
  · intro docs cache2 hrun
    simp [MainLore.load_documents, hload, hrun]
  · intro e hrun
    simp [MainLore.load_documents, hload, hrun]

/-- Witness for `lore_save_exactly_once` on the empty tree with no prior
cache. -/
theorem lore_save_exactly_once_w :
    (∀ docs cache2, MainLore.processFiles [] [] (Json.obj []) = Except.ok (docs, cache2) →
        MainLore.load_documents CacheFileState.missing [] =
          (Except.ok docs, [EmbedCache.save_cache cache2])) ∧
      (∀ e, MainLore.processFiles [] [] (Json.obj []) = Except.error e →
        MainLore.load_documents CacheFileState.missing [] = (Except.error e, [])) :=
  lore_save_exactly_once CacheFileState.missing [] (Json.obj []) rfl

/-- Helper for claim C2: whenever the walk list still contains a qualifying
file whose read raises, the walk loop of the lore driver ends in an
exception, whatever the cache. -/
theorem processFiles_error_of_bad (fs : FileSystem) (f : FSFile)
    (hq : qualifies f = true)
    (hio : EmbedCache.get_file_hash fs f.path = Except.error PyError.ioError) :
    ∀ (l : List FSFile) (cache : Json), f ∈ l →
      ∃ e, MainLore.processFiles fs l cache = Except.error e := by
  intro l
  induction l with
  | nil =>
    intro cache hmem
    exact absurd hmem (List.not_mem_nil f)
  | cons g rest ih =>
    intro cache hmem
    rcases List.mem_cons.mp hmem with heq | hmem2
    · subst heq
      refine ⟨PyError.ioError, ?_⟩
      have hfail : EmbedCache.file_needs_embedding fs f.path cache =
          Except.error PyError.ioError := by
        unfold EmbedCache.file_needs_embedding
        rw [hio]
        rfl
      simp [MainLore.processFiles, hq, hfail]
    · by_cases hg : qualifies g = true
      · cases hne : EmbedCache.file_needs_embedding fs g.path cache with
        | error e =>
          exact ⟨e, by simp [MainLore.processFiles, hg, hne]⟩
        | ok b =>
          cases b with
          | false =>
            obtain ⟨e, he⟩ := ih cache hmem2
            exact ⟨e, by simp [MainLore.processFiles, hg, hne, he]⟩
          | true =>
            cases hrt : readText fs g.path with
            | error e2 =>
              exact ⟨e2, by simp [MainLore.processFiles, hg, hne, hrt]⟩
            | ok content =>
              cases hup : EmbedCache.update_cache fs g.path cache with
              | error e3 =>
                exact ⟨e3, by simp [MainLore.processFiles, hg, hne, hrt, hup]⟩
              | ok cache2 =>
                obtain ⟨e, he⟩ := ih cache2 hmem2
                exact ⟨e, by simp [MainLore.processFiles, hg, hne, hrt, hup, he]⟩
      · obtain ⟨e, he⟩ := ih cache hmem2
        exact ⟨e, by simp [MainLore.processFiles, hg, he]⟩

/-- Claim C2, counterexample: with no prior cache, an unreadable `a.md`
followed by a readable changed `b.md` makes the lore driver raise
`IOError`, return no documents at all (so `b.md` is not processed), and
write nothing. -/
theorem lore_ioerror_aborts_cex :
    MainLore.load_documents CacheFileState.missing
        [⟨"data/a.md", "a.md", false, "Alpha"⟩,
          ⟨"data/b.md", "b.md", true, "Beta"⟩] =
      (Except.error PyError.ioError, []) := rfl

/-- Claim C2, amended: when one qualifying file of the walk cannot be read,
the `IOError` propagates and aborts the whole run of the lore driver — no
document list is returned, and no durable write happens, so the on-disk
cache stays at its pre-run state and every file is retried next run. -/
theorem lore_ioerror_aborts (st : CacheFileState) (fs : FileSystem) (cache : Json)
    (f : FSFile) (hmem : f ∈ fs) (hq : qualifies f = true)
    (hio : EmbedCache.get_file_hash fs f.path = Except.error PyError.ioError)
    (hload : EmbedCache.load_cache st = Except.ok cache) :
    (∃ e, (MainLore.load_documents st fs).1 = Except.error e) ∧
      (MainLore.load_documents st fs).2 = [] := by
  obtain ⟨e, he⟩ := processFiles_error_of_bad fs f hq hio fs cache hmem
  refine ⟨⟨e, ?_⟩, ?_⟩
  · simp [MainLore.load_documents, hload, he]
  · simp [MainLore.load_documents, hload, he]

/-- Witness for `lore_ioerror_aborts` on the concrete two-file tree. -/
theorem lore_ioerror_aborts_w :
    (∃ e, (MainLore.load_documents CacheFileState.missing
        [⟨"data/a.md", "a.md", false, "Alpha"⟩,
          ⟨"data/b.md", "b.md", true, "Beta"⟩]).1 = Except.error e) ∧
      (MainLore.load_documents CacheFileState.missing
        [⟨"data/a.md", "a.md", false, "Alpha"⟩,
          ⟨"data/b.md", "b.md", true, "Beta"⟩]).2 = [] :=
  lore_ioerror_aborts CacheFileState.missing
    [⟨"data/a.md", "a.md", false, "Alpha"⟩, ⟨"data/b.md", "b.md", true, "Beta"⟩]
    (Json.obj []) ⟨"data/a.md", "a.md", false, "Alpha"⟩
    (List.mem_cons_self _ _) rfl rfl rfl

/-! Helper lemmas about dict lookup after dict assignment. -/

theorem objGet_objSet_self (fields : List (String × Json)) (k : String) (v : Json) :
    objGet (objSet fields k v) k = some v := by
  induction fields with
  | nil => simp [objSet, objGet]
  | cons p rest ih =>
    obtain ⟨k2, v2⟩ := p
    by_cases h : k2 = k
    · subst h
      simp [objSet, objGet]
    · simp [objSet, objGet, h, ih]

theorem objGet_objSet_ne (fields : List (String × Json)) (k p : String) (v : Json)
    (h : p ≠ k) : objGet (objSet fields k v) p = objGet fields p := by
  induction fields with
  | nil =>
    simp [objSet, objGet, Ne.symm h]
  | cons q rest ih =>
    obtain ⟨k2, v2⟩ := q
    by_cases h2 : k2 = k
    · subst h2
      simp [objSet, objGet, Ne.symm h]
    · by_cases h3 : k2 = p
      · subst h3
        simp [objSet, objGet, h2]
      · simp [objSet, objGet, h2, h3, ih]

/-! Inversion lemmas for the cache primitives. -/

theorem file_needs_embedding_ok_inv (fs : FileSystem) (p : String) (cache : Json)
    (b : Bool) (h : EmbedCache.file_needs_embedding fs p cache = Except.ok b) :
    ∃ d fields, EmbedCache.get_file_hash fs p = Except.ok d ∧
      cache = Json.obj fields ∧ b = EmbedCache.hashDiffers d (objGet fields p) := by
  unfold EmbedCache.file_needs_embedding at h
  cases hh : EmbedCache.get_file_hash fs p with
  | error e => rw [hh] at h; simp at h
  | ok d =>
    rw [hh] at h
    cases cache with
    | obj fields =>
      simp [dictGet] at h
      exact ⟨d, fields, rfl, rfl, h.symm⟩
    | null => simp [dictGet] at h
    | bool b2 => simp [dictGet] at h
    | num n => simp [dictGet] at h
    | str s => simp [dictGet] at h
    | arr xs => simp [dictGet] at h

theorem update_cache_ok_inv (fs : FileSystem) (p : String) (cache cache2 : Json)
    (h : EmbedCache.update_cache fs p cache = Except.ok cache2) :
    ∃ d fields, EmbedCache.get_file_hash fs p = Except.ok d ∧
      cache = Json.obj fields ∧
      cache2 = Json.obj (objSet fields p (Json.str d)) := by
  unfold EmbedCache.update_cache at h
  cases hh : EmbedCache.get_file_hash fs p with
  | error e => rw [hh] at h; simp at h
  | ok d =>
    rw [hh] at h
    cases cache with
    | obj fields =>
      simp [dictSet] at h
      exact ⟨d, fields, rfl, rfl, h.symm⟩
    | null => simp [dictSet] at h
    | bool b2 => simp [dictSet] at h
    | num n => simp [dictSet] at h
    | str s => simp [dictSet] at h
    | arr xs => simp [dictSet] at h

theorem file_needs_embedding_obj (fs : FileSystem) (p : String)
    (fields : List (String × Json)) (d : String)
    (h : EmbedCache.get_file_hash fs p = Except.ok d) :
    EmbedCache.file_needs_embedding fs p (Json.obj fields) =
      Except.ok (EmbedCache.hashDiffers d (objGet fields p)) := by
  unfold EmbedCache.file_needs_embedding
  rw [h]
  rfl

theorem hashDiffers_eq_false (d : String) (og : Option Json)
    (h : EmbedCache.hashDiffers d og = false) : og = some (Json.str d) := by
  cases og with
  | none => simp [EmbedCache.hashDiffers] at h
  | some v =>
    cases v with
    | str s =>
      simp [EmbedCache.hashDiffers] at h
      rw [h]
    | null => simp [EmbedCache.hashDiffers] at h
    | bool b2 => simp [EmbedCache.hashDiffers] at h
    | num n => simp [EmbedCache.hashDiffers] at h
    | arr xs => simp [EmbedCache.hashDiffers] at h
    | obj gs => simp [EmbedCache.hashDiffers] at h

/-- A path whose freshness test answers false keeps answering false after
the walk loop ran over any list of files: the loop only ever stores the
current hash of a path, which cannot invalidate an entry that already holds
the current hash. -/
theorem needs_false_preserved (fs : FileSystem) (p : String) :
    ∀ (l : List FSFile) (cache : Json) (docs : List Document) (cache2 : Json),
      MainLore.processFiles fs l cache = Except.ok (docs, cache2) →
      EmbedCache.file_needs_embedding fs p cache = Except.ok false →
      EmbedCache.file_needs_embedding fs p cache2 = Except.ok false := by
  intro l
  induction l with
  | nil =>
    intro cache docs cache2 hrun hfresh
    simp [MainLore.processFiles] at hrun
    rw [← hrun.2]
    exact hfresh
  | cons g rest ih =>
    intro cache docs cache2 hrun hfresh
    by_cases hg : qualifies g = true
    · cases hne : EmbedCache.file_needs_embedding fs g.path cache with
      | error e => simp [MainLore.processFiles, hg, hne] at hrun
      | ok b =>
        cases b with
        | false =>
          have hrun2 : MainLore.processFiles fs rest cache = Except.ok (docs, cache2) := by
            simpa [MainLore.processFiles, hg, hne] using hrun
          exact ih cache docs cache2 hrun2 hfresh
        | true =>
          cases hrt : readText fs g.path with
          | error e2 => simp [MainLore.processFiles, hg, hne, hrt] at hrun
          | ok content =>
            cases hup : EmbedCache.update_cache fs g.path cache with
            | error e3 => simp [MainLore.processFiles, hg, hne, hrt, hup] at hrun
            | ok cache3 =>
              cases hrec : MainLore.processFiles fs rest cache3 with
              | error e4 => simp [MainLore.processFiles, hg, hne, hrt, hup, hrec] at hrun
              | ok pr =>
                obtain ⟨docs2, cacheF⟩ := pr
                have hcF : cacheF = cache2 := by
                  simp [MainLore.processFiles, hg, hne, hrt, hup, hrec] at hrun
                  exact hrun.2
                obtain ⟨d, fields, hh, hcobj, hb⟩ :=
                  file_needs_embedding_ok_inv fs p cache false hfresh
                obtain ⟨dg, fieldsg, hhg, hcobjg, hc3⟩ :=
                  update_cache_ok_inv fs g.path cache cache3 hup
                rw [hcobj] at hcobjg
                injection hcobjg with hfe
                subst hfe
                have hog : objGet fields p = some (Json.str d) :=
                  hashDiffers_eq_false d (objGet fields p) hb.symm
                have hfresh3 : EmbedCache.file_needs_embedding fs p cache3 =
                    Except.ok false := by
                  rw [hc3, file_needs_embedding_obj fs p _ d hh]
                  by_cases hpg : p = g.path
                  · have hdg : dg = d := by
                      rw [hpg] at hh
                      rw [hh] at hhg
                      injection hhg with hx
                      exact hx.symm
                    subst hpg
                    rw [objGet_objSet_self, hdg]
                    simp [EmbedCache.hashDiffers]
                  · rw [objGet_objSet_ne fields g.path p (Json.str dg) hpg, hog]
                    simp [EmbedCache.hashDiffers]
                rw [← hcF]
                exact ih cache3 docs2 cacheF hrec hfresh3
    · have hrun2 : MainLore.processFiles fs rest cache = Except.ok (docs, cache2) := by
        simpa [MainLore.processFiles, hg] using hrun
      exact ih cache docs cache2 hrun2 hfresh

/-- After a successful pass of the walk loop, the freshness test answers
false on every qualifying file of the processed list. -/
theorem processFiles_fresh_after (fs : FileSystem) :
    ∀ (l : List FSFile) (cache : Json) (docs : List Document) (cache2 : Json),
      MainLore.processFiles fs l cache = Except.ok (docs, cache2) →
      ∀ f ∈ l, qualifies f = true →
        EmbedCache.file_needs_embedding fs f.path cache2 = Except.ok false := by
  intro l
  induction l with
  | nil =>
    intro cache docs cache2 hrun f hf
    exact absurd hf (List.not_mem_nil f)
  | cons g rest ih =>
    intro cache docs cache2 hrun f hf hq
    by_cases hg : qualifies g = true
    · cases hne : EmbedCache.file_needs_embedding fs g.path cache with
      | error e => simp [MainLore.processFiles, hg, hne] at hrun
      | ok b =>
        cases b with
        | false =>
          have hrun2 : MainLore.processFiles fs rest cache = Except.ok (docs, cache2) := by
            simpa [MainLore.processFiles, hg, hne] using hrun
          rcases List.mem_cons.mp hf with heq | hf2
          · subst heq
            exact needs_false_preserved fs f.path rest cache docs cache2 hrun2 hne
          · exact ih cache docs cache2 hrun2 f hf2 hq
        | true =>
          cases hrt : readText fs g.path with
          | error e2 => simp [MainLore.processFiles, hg, hne, hrt] at hrun
          | ok content =>
            cases hup : EmbedCache.update_cache fs g.path cache with
            | error e3 => simp [MainLore.processFiles, hg, hne, hrt, hup] at hrun
            | ok cache3 =>
              cases hrec : MainLore.processFiles fs rest cache3 with
              | error e4 => simp [MainLore.processFiles, hg, hne, hrt, hup, hrec] at hrun
              | ok pr =>
                obtain ⟨docs2, cacheF⟩ := pr
                have hcF : cacheF = cache2 := by
                  simp [MainLore.processFiles, hg, hne, hrt, hup, hrec] at hrun
                  exact hrun.2
                have hfresh3 : EmbedCache.file_needs_embedding fs g.path cache3 =
                    Except.ok false := by
                  obtain ⟨dg, fieldsg, hhg, hcobj, hc3⟩ :=
                    update_cache_ok_inv fs g.path cache cache3 hup
                  rw [hc3, file_needs_embedding_obj fs g.path _ dg hhg]
                  rw [objGet_objSet_self]
                  simp [EmbedCache.hashDiffers]
                rw [← hcF]
                rcases List.mem_cons.mp hf with heq | hf2
                · subst heq
                  exact needs_false_preserved fs f.path rest cache3 docs2 cacheF
                    hrec hfresh3
                · exact ih cache3 docs2 cacheF hrec f hf2 hq
    · have hrun2 : MainLore.processFiles fs rest cache = Except.ok (docs, cache2) := by
        simpa [MainLore.processFiles, hg] using hrun
      rcases List.mem_cons.mp hf with heq | hf2
      · subst heq
        exact absurd hq hg
      · exact ih cache docs cache2 hrun2 f hf2 hq

/-- When the freshness test answers false on every qualifying file of the
list, the walk loop emits no document and leaves the cache untouched. -/
theorem processFiles_all_fresh (fs : FileSystem) :
    ∀ (l : List FSFile) (cache : Json),
      (∀ f ∈ l, qualifies f = true →
        EmbedCache.file_needs_embedding fs f.path cache = Except.ok false) →
      MainLore.processFiles fs l cache = Except.ok ([], cache) := by
  intro l
  induction l with
  | nil =>
    intro cache hall
    simp [MainLore.processFiles]
  | cons g rest ih =>
    intro cache hall
    have hrest := ih cache (fun f hf hq => hall f (List.mem_cons_of_mem g hf) hq)
    by_cases hg : qualifies g = true
    · have hne := hall g (List.mem_cons_self g rest) hg
      simp [MainLore.processFiles, hg, hne, hrest]
    · simp [MainLore.processFiles, hg, hrest]

/-- Claim C4: a run of the lore driver that returns normally leaves a
persisted cache against which an immediate second run over the unchanged
tree returns the empty document sequence. -/
theorem lore_idempotent (st : CacheFileState) (fs : FileSystem) (docs : List Document)
    (h : (MainLore.load_documents st fs).1 = Except.ok docs) :
    (MainLore.load_documents
        (MainLore.diskAfter st (MainLore.load_documents st fs).2) fs).1 =
      Except.ok [] := by
  cases hload : EmbedCache.load_cache st with
  | error e =>
    simp [MainLore.load_documents, hload] at h
  | ok cache =>
    cases hrun : MainLore.processFiles fs fs cache with
    | error e =>
      simp [MainLore.load_documents, hload, hrun] at h
    | ok pr =>
      obtain ⟨docs0, cache2⟩ := pr
      have hdisk : MainLore.diskAfter st (MainLore.load_documents st fs).2 =
          CacheFileState.present (some cache2) := by
        simp [MainLore.load_documents, hload, hrun, MainLore.diskAfter,
          EmbedCache.save_cache]
      rw [hdisk]
      have hrun2 := processFiles_all_fresh fs fs cache2
        (fun f hf hq => processFiles_fresh_after fs fs cache docs0 cache2 hrun f hf hq)
      simp [MainLore.load_documents, EmbedCache.load_cache, hrun2]

/-- Witness for `lore_idempotent`: one readable markdown file, no prior
cache; the first run returns one document, the second none. -/
theorem lore_idempotent_w :
    (MainLore.load_documents
        (MainLore.diskAfter CacheFileState.missing
          (MainLore.load_documents CacheFileState.missing
            [⟨"data/a.md", "a.md", true, "Alpha"⟩]).2)
        [⟨"data/a.md", "a.md", true, "Alpha"⟩]).1 =
      Except.ok [] :=
  lore_idempotent CacheFileState.missing [⟨"data/a.md", "a.md", true, "Alpha"⟩]
    [⟨"Alpha", "data/a.md"⟩] rfl

/-- Freshness decision of a file against a fixed cache object, for a file
that resolves to itself and is readable: the digest of its content against
the cached entry for its path. -/
def needsB (fs : FileSystem) (fields : List (String × Json)) (f : FSFile) : Bool :=
  EmbedCache.hashDiffers (EmbedCache.md5hex f.content) (objGet fields f.path)

/-- In a tree with pairwise distinct paths, every walked file resolves to
itself. -/
theorem resolve_self_of_nodup :
    ∀ (fs : FileSystem), (fs.map FSFile.path).Nodup →
      ∀ f ∈ fs, resolve fs f.path = some f := by
  intro fs
  induction fs with
  | nil =>
    intro _ f hf
    exact absurd hf (List.not_mem_nil f)
  | cons g rest ih =>
    intro hnd f hf
    have hnd2 : (rest.map FSFile.path).Nodup := (List.nodup_cons.mp (by simpa using hnd)).2
    have hgnot : g.path ∉ rest.map FSFile.path := (List.nodup_cons.mp (by simpa using hnd)).1
    rcases List.mem_cons.mp hf with heq | hf2
    · subst heq
      simp [resolve, List.find?]
    · have hne : (g.path == f.path) = false := by
        simp only [beq_eq_false_iff_ne]
        intro hcontra
        exact hgnot (hcontra ▸ List.mem_map_of_mem FSFile.path hf2)
      have hrec := ih hnd2 f hf2
      simpa [resolve, List.find?, hne] using hrec

/-- The walk loop of the plain driver returns one document per qualifying
file, in walk order, when every qualifying file is readable. -/
theorem collect_all (fs : FileSystem) :
    ∀ l : List FSFile,
      (∀ f ∈ l, resolve fs f.path = some f) →
      (∀ f ∈ l, qualifies f = true → f.readable = true) →
      Main.collect fs l =
        Except.ok ((l.filter (fun f => qualifies f)).map
          (fun f => { page_content := f.content, source := f.path })) := by
  intro l
  induction l with
  | nil =>
    intro _ _
    simp [Main.collect]
  | cons g rest ih =>
    intro hres hread
    have hrest := ih (fun f hf => hres f (List.mem_cons_of_mem g hf))
      (fun f hf hq => hread f (List.mem_cons_of_mem g hf) hq)
    by_cases hg : qualifies g = true
    · have hrt : readText fs g.path = Except.ok g.content := by
        simp [readText, hres g (List.mem_cons_self g rest),
          hread g (List.mem_cons_self g rest) hg]
      simp [Main.collect, hg, hrt, hrest, List.filter_cons]
    · simp [Main.collect, hg, hrest, List.filter_cons]

/-- The walk loop of the lore driver, over a tree with distinct paths whose
qualifying files are readable and a dict cache, returns exactly the
qualifying files whose digest differs from their entry in the initial
cache, in walk order. -/
theorem processFiles_run (fs : FileSystem) (fields0 : List (String × Json)) :
    ∀ (l : List FSFile) (fields : List (String × Json)),
      (l.map FSFile.path).Nodup →
      (∀ f ∈ l, resolve fs f.path = some f) →
      (∀ f ∈ l, qualifies f = true → f.readable = true) →
      (∀ f ∈ l, objGet fields f.path = objGet fields0 f.path) →
      ∃ fields2, MainLore.processFiles fs l (Json.obj fields) =
        Except.ok
          ((l.filter (fun f => qualifies f && needsB fs fields0 f)).map
            (fun f => { page_content := f.content, source := f.path }),
          Json.obj fields2) := by
  intro l
  induction l with
  | nil =>
    intro fields _ _ _ _
    exact ⟨fields, by simp [MainLore.processFiles]⟩
  | cons g rest ih =>
    intro fields hnd hres hread hagree
    have hnd2 : (rest.map FSFile.path).Nodup := (List.nodup_cons.mp (by simpa using hnd)).2
    have hgnot : g.path ∉ rest.map FSFile.path := (List.nodup_cons.mp (by simpa using hnd)).1
    have hres2 := fun f hf => hres f (List.mem_cons_of_mem g hf)
    have hread2 := fun f hf hq => hread f (List.mem_cons_of_mem g hf) hq
    by_cases hg : qualifies g = true
    · have hresg := hres g (List.mem_cons_self g rest)
      have hreadg := hread g (List.mem_cons_self g rest) hg
      have hhash : EmbedCache.get_file_hash fs g.path =
          Except.ok (EmbedCache.md5hex g.content) := by
        simp [EmbedCache.get_file_hash, hresg, hreadg]
      have hneed : EmbedCache.file_needs_embedding fs g.path (Json.obj fields) =
          Except.ok (needsB fs fields0 g) := by
        rw [file_needs_embedding_obj fs g.path fields _ hhash,
          hagree g (List.mem_cons_self g rest)]
        rfl
      cases hN : needsB fs fields0 g with
      | true =>
        have hrt : readText fs g.path = Except.ok g.content := by
          simp [readText, hresg, hreadg]
        have hup : EmbedCache.update_cache fs g.path (Json.obj fields) =
            Except.ok (Json.obj
              (objSet fields g.path (Json.str (EmbedCache.md5hex g.content)))) := by
          unfold EmbedCache.update_cache
          rw [hhash]
          rfl
        have hagree2 : ∀ f ∈ rest,
            objGet (objSet fields g.path (Json.str (EmbedCache.md5hex g.content)))
                f.path = objGet fields0 f.path := by
          intro f hf
          have hneq : f.path ≠ g.path := by
            intro hcontra
            exact hgnot (hcontra ▸ List.mem_map_of_mem FSFile.path hf)
          rw [objGet_objSet_ne fields g.path f.path _ hneq]
          exact hagree f (List.mem_cons_of_mem g hf)
        obtain ⟨fields2, hrec⟩ := ih _ hnd2 hres2 hread2 hagree2
        refine ⟨fields2, ?_⟩
        simp [MainLore.processFiles, hg, hneed, hN, hrt, hup, hrec, List.filter_cons]
      | false =>
        obtain ⟨fields2, hrec⟩ := ih fields hnd2 hres2 hread2
          (fun f hf => hagree f (List.mem_cons_of_mem g hf))
        refine ⟨fields2, ?_⟩
        simp [MainLore.processFiles, hg, hneed, hN, hrec, List.filter_cons]
    · obtain ⟨fields2, hrec⟩ := ih fields hnd2 hres2 hread2
        (fun f hf => hagree f (List.mem_cons_of_mem g hf))
      refine ⟨fields2, ?_⟩
      simp [MainLore.processFiles, hg, hrec, List.filter_cons]

theorem countP_and_le (l : List FSFile) (q n : FSFile → Bool) :
    l.countP (fun x => q x && n x) ≤ l.countP q := by
  induction l with
  | nil => simp
  | cons g rest ih =>
    by_cases hg : q g = true
    · by_cases hn2 : n g = true
      · simp [List.countP_cons, hg, hn2]
        omega
      · simp [List.countP_cons, hg, hn2]
        omega
    · simp [List.countP_cons, hg]
      omega

theorem countP_and_lt (l : List FSFile) (q n : FSFile → Bool) (f : FSFile)
    (hf : f ∈ l) (hq : q f = true) (hn : n f = false) :
    l.countP (fun x => q x && n x) < l.countP q := by
  induction l with
  | nil => exact absurd hf (List.not_mem_nil f)
  | cons g rest ih =>
    rcases List.mem_cons.mp hf with heq | hf2
    · subst heq
      have hle := countP_and_le rest q n
      simp [List.countP_cons, hq, hn]
      omega
    · have hlt := ih hf2
      by_cases hg : q g = true
      · by_cases hn2 : n g = true
        · simp [List.countP_cons, hg, hn2]
          omega
        · simp [List.countP_cons, hg, hn2]
          omega
      · simp [List.countP_cons, hg]
        omega

/-- The filtered document list of the lore walk equals the full document
list of the plain walk exactly when every qualifying file passes the
freshness test. -/
theorem filter_and_eq_filter_iff (l : List FSFile) (q n : FSFile → Bool) :
    ((l.filter (fun f => q f && n f)).map
        (fun f => ({ page_content := f.content, source := f.path } : Document)) =
      (l.filter (fun f => q f)).map
        (fun f => ({ page_content := f.content, source := f.path } : Document))) ↔
      ∀ f ∈ l, q f = true → n f = true := by
  constructor
  · intro heq f hf hq
    by_contra hncontra
    have hn : n f = false := by
      cases hN : n f with
      | true => exact absurd hN hncontra
      | false => rfl
    have hlt := countP_and_lt l q n f hf hq hn
    have hlen := congrArg List.length heq
    rw [List.length_map, List.length_map, ← List.countP_eq_length_filter,
      ← List.countP_eq_length_filter] at hlen
    have hlen2 : l.countP (fun x => q x && n x) = l.countP q := hlen
    omega
  · intro hall
    have hfeq : l.filter (fun f => q f && n f) = l.filter (fun f => q f) := by
      apply List.filter_congr
      intro f hf
      by_cases hq : q f = true
      · simp [hq, hall f hf hq]
      · have hq2 : q f = false := by
          cases hQ : q f with
          | true => exact absurd hQ hq
          | false => rfl
        simp [hq2]
    rw [hfeq]

/-- Claim C10: the two drivers are distinct behaviours.  Over a tree with
pairwise distinct paths whose qualifying files are all readable, and any
dict cache state, the plain driver of `main.py` returns a document for
every qualifying file while never consulting the freshness cache (it takes
no cache at all), the lore driver of `main_lore.py` returns some filtered
subsequence, and the two sequences coincide exactly when every qualifying
file needs processing against that cache. -/
theorem drivers_differ (fs : FileSystem) (fields : List (String × Json))
    (hnd : (fs.map FSFile.path).Nodup)
    (hread : ∀ f ∈ fs, qualifies f = true → f.readable = true) :
    Main.load_documents fs = Except.ok (allDocs fs) ∧
      ∃ docs, (MainLore.load_documents
          (CacheFileState.present (some (Json.obj fields))) fs).1 = Except.ok docs ∧
        (docs = allDocs fs ↔
          ∀ f ∈ fs, qualifies f = true →
            EmbedCache.file_needs_embedding fs f.path (Json.obj fields) =
              Except.ok true) := by
  have hres := resolve_self_of_nodup fs hnd
  constructor
  · exact collect_all fs fs hres hread
  · obtain ⟨fields2, hrun⟩ :=
      processFiles_run fs fields fs fields hnd hres hread (fun f hf => rfl)
    refine ⟨(fs.filter (fun f => qualifies f && needsB fs fields f)).map
        (fun f => { page_content := f.content, source := f.path }), ?_, ?_⟩
    · simp [MainLore.load_documents, EmbedCache.load_cache, hrun]
    · rw [allDocs,
        filter_and_eq_filter_iff fs (fun f => qualifies f) (fun f => needsB fs fields f)]
      constructor
      · intro hall f hf hq
        have hhash : EmbedCache.get_file_hash fs f.path =
            Except.ok (EmbedCache.md5hex f.content) := by
          simp [EmbedCache.get_file_hash, hres f hf, hread f hf hq]
        rw [file_needs_embedding_obj fs f.path fields _ hhash]
        have hN := hall f hf hq
        simp only [needsB] at hN
        rw [hN]
      · intro hall f hf hq
        have hhash : EmbedCache.get_file_hash fs f.path =
            Except.ok (EmbedCache.md5hex f.content) := by
          simp [EmbedCache.get_file_hash, hres f hf, hread f hf hq]
        have h2 := hall f hf hq
        rw [file_needs_embedding_obj fs f.path fields _ hhash] at h2
        simp only [Except.ok.injEq] at h2
        simp only [needsB]
        exact h2

/-- Witness for `drivers_differ`: one readable markdown file against the
empty cache object; there the two drivers agree, and the iff confirms that
every qualifying file needs processing. -/
theorem drivers_differ_w :
    Main.load_documents [⟨"data/a.md", "a.md", true, "Alpha"⟩] =
        Except.ok (allDocs [⟨"data/a.md", "a.md", true, "Alpha"⟩]) ∧
      ∃ docs, (MainLore.load_documents
          (CacheFileState.present (some (Json.obj [])))
          [⟨"data/a.md", "a.md", true, "Alpha"⟩]).1 = Except.ok docs ∧
        (docs = allDocs [⟨"data/a.md", "a.md", true, "Alpha"⟩] ↔
          ∀ f ∈ [(⟨"data/a.md", "a.md", true, "Alpha"⟩ : FSFile)], qualifies f = true →
            EmbedCache.file_needs_embedding [⟨"data/a.md", "a.md", true, "Alpha"⟩]
              f.path (Json.obj []) = Except.ok true) :=
  drivers_differ [⟨"data/a.md", "a.md", true, "Alpha"⟩] [] (by simp) (by decide)
